import Mathlib

/-!
Verification of the Subsonic client core of sublime-music (pkg/subsonic):
the struct-to-query-parameter marshaler (values.go), the custom scalar
codecs (id.go, duration.go, mediaannotation.go), the response envelope
unwrapping (client.go), and the client session state (client.go,
system.go, error.go).

Go values that can appear as a request-descriptor field are modelled by
the inductive `JVal`; `jsonMarshal` models Go encoding/json on that
fragment (strings, integers, booleans, nil pointers / nil slices, and
slices of such values).  JSON numbers are modelled as integers, which
covers every value the package ever produces or consumes.
-/

namespace Subsonic

/-- Model of a Go value as seen by encoding/json: a string (also covers
SubsonicID, whose underlying type is string), an integer number, a
boolean, the nil pointer or nil slice (both marshal to the literal
null), or a non-nil slice of values. -/
inductive JVal where
  | jstr (s : String)
  | jint (n : Int)
  | jbool (b : Bool)
  | jnull
  | jarr (elems : List JVal)

/-- Escaping of one character inside a JSON string literal, as Go
encoding/json does for the quote and backslash characters.  (Control
characters and the HTML-escaped characters are outside the model; no
value in the package contains them.) -/
def escChar (c : Char) : List Char :=
  if c = '"' ∨ c = '\\' then ['\\', c] else [c]

/-- JSON string-literal escaping over the characters of a string. -/
def escapeChars : List Char → List Char
  | [] => []
  | c :: rest => escChar c ++ escapeChars rest

mutual

/-- Model of Go json.Marshal restricted to the `JVal` fragment: strings
are quoted and escaped, integers print in base 10, booleans print as
true/false, nil marshals to the literal null, and slices marshal to a
bracketed comma-separated array. -/
def jsonMarshal : JVal → String
  | .jstr s => "\"" ++ (escapeChars s.toList).asString ++ "\""
  | .jint n => toString n
  | .jbool b => cond b "true" "false"
  | .jnull => "null"
  | .jarr elems => "[" ++ jsonMarshalList elems ++ "]"

/-- Comma-separated marshaling of the elements of a slice. -/
def jsonMarshalList : List JVal → String
  | [] => ""
  | [v] => jsonMarshal v
  | v :: rest => jsonMarshal v ++ "," ++ jsonMarshalList rest

end

/-- One field of a request descriptor as reflection sees it in
MarshalValues (values.go): the declared Go field name, the looked-up
value of the url struct tag when present, and the field's value. -/
structure Field where
  fieldName : String
  tag : Option String
  value : JVal

/-- Splitting a character list at every occurrence of a separator
character, translated from Go strings.Split (which never returns an
empty list; splitting the empty string yields one empty part). -/
def splitChar (sep : Char) : List Char → List (List Char)
  | [] => [[]]
  | c :: rest =>
    if c = sep then [] :: splitChar sep rest
    else
      match splitChar sep rest with
      | [] => [[c]]
      | t :: ts => (c :: t) :: ts

/-- Go strings.Split on strings, via `splitChar`. -/
def stringSplit (s : String) (sep : Char) : List String :=
  (splitChar sep s.toList).map List.asString

/-- Tag resolution from the loop body of MarshalValues (values.go lines
17-29): with a url tag present, the wire name is the part before the
first comma and omitempty is set when any later comma-separated part
equals omitempty; with no tag, the wire name is the declared field name
and omitempty is off. -/
def resolveTag (f : Field) : String × Bool :=
  match f.tag with
  | some t =>
    let parts := stringSplit t ','
    (parts.headD "", (parts.drop 1).contains "omitempty")
  | none => (f.fieldName, false)

/-- Quote stripping from MarshalValues (values.go lines 39-42): if the
marshaled bytes begin and end with a double quote, one layer of quotes
is removed.  (Go indexes v[0] and v[len(v)-1] directly; json.Marshal
output is never empty, and a one-byte output cannot begin with a quote,
so the length guard here only makes the model total.) -/
def stripQuotes (l : List Char) : List Char :=
  if l.head? = some '"' ∧ l.getLast? = some '"' ∧ 2 ≤ l.length then
    (l.drop 1).dropLast
  else l

/-- The textual wire form MarshalValues computes for one field value:
json.Marshal followed by quote stripping. -/
def fieldText (v : JVal) : String :=
  (stripQuotes (jsonMarshal v).toList).asString

/-- A url.Values: a map from wire name to a list of string values,
modelled as an association list with map-assignment (overwrite)
semantics. -/
abbrev Values := List (String × List String)

/-- Map assignment out[k] = v of Go, replacing any existing entry. -/
def valuesSet (vs : Values) (k : String) (v : List String) : Values :=
  match vs with
  | [] => [(k, v)]
  | (k0, v0) :: rest =>
    if k0 = k then (k, v) :: rest else (k0, v0) :: valuesSet rest k v

/-- Map lookup out[k] of Go. -/
def valuesGet (vs : Values) (k : String) : Option (List String) :=
  match vs with
  | [] => none
  | (k0, v0) :: rest => if k0 = k then some v0 else valuesGet rest k

/-- The body of the field loop of MarshalValues (values.go lines 15-55)
for one field: resolve the wire name and omitempty flag, fail on an
empty resolved name (the Go error text additionally quotes the word
url), marshal the value and strip quotes, skip the field when omitempty
is set and the text is the literal null or is empty, otherwise emit the
(name, text) pair. -/
def emitField (f : Field) : Except String (Option (String × String)) :=
  let (name, omitEmpty) := resolveTag f
  if name = "" then .error "invalid url tag"
  else
    let v := fieldText f.value
    if omitEmpty ∧ (v = "null" ∨ v = "") then .ok none
    else .ok (some (name, v))

/-- The field loop of MarshalValues, folding `emitField` over the
fields in declaration order and assigning out[name] = [text] for each
emitted field. -/
def marshalLoop : List Field → Values → Except String Values
  | [], out => .ok out
  | f :: rest, out =>
    match emitField f with
    | .error e => .error e
    | .ok none => marshalLoop rest out
    | .ok (some (k, v)) => marshalLoop rest (valuesSet out k [v])

/-- MarshalValues (values.go lines 12-57) over the modelled reflection
view of the input struct: starts from the empty url.Values and runs the
field loop; an error aborts the whole call with no partial result. -/
def MarshalValues (fields : List Field) : Except String Values :=
  marshalLoop fields []

/-- The ReqCreateShare request descriptor (sharing.go lines 28-36) at
the spec's scenario input: ID is the two-element slice of the strings
s1 and s2, Description is empty, Expires is the zero time.  The tag
strings are exactly the struct tags of sharing.go.  The Expires value
models the external collaborator go.mau.fi/util/jsontime: a zero
UnixMilli marshals to the JSON number 0 (any non-null, non-empty
encoding of the zero time gives the same behavior for the id and
description keys stated below). -/
def reqCreateShareScenario : List Field :=
  [⟨"ID", some "id", .jarr [.jstr "s1", .jstr "s2"]⟩,
   ⟨"Description", some "description,omitempty", .jstr ""⟩,
   ⟨"Expires", some "expires,omitempty", .jint 0⟩]

/-- Looking up a key that was just assigned succeeds with the assigned
value. -/
lemma valuesGet_valuesSet_self (vs : Values) (k : String) (v : List String) :
    valuesGet (valuesSet vs k v) k = some v := by
  induction vs with
  | nil => simp [valuesSet, valuesGet]
  | cons hd tl ih =>
    obtain ⟨k0, v0⟩ := hd
    by_cases h : k0 = k <;> simp [valuesSet, valuesGet, h, ih]

/-- Map assignment never removes a key that is already present. -/
lemma valuesGet_valuesSet_isSome (vs : Values) (k k' : String)
    (v' : List String) (h : (valuesGet vs k).isSome) :
    (valuesGet (valuesSet vs k' v') k).isSome := by
  induction vs with
  | nil => simp [valuesGet] at h
  | cons hd tl ih =>
    obtain ⟨k0, v0⟩ := hd
    by_cases hk : k0 = k'
    · subst hk
      by_cases hkk : k0 = k <;> simp_all [valuesSet, valuesGet]
    · by_cases hkk : k0 = k <;> simp_all [valuesSet, valuesGet]

/-- The only error the field loop body can produce is the
invalid-url-tag error (the model's json.Marshal is total). -/
lemma emitField_error_eq (f : Field) (e : String)
    (h : emitField f = .error e) : e = "invalid url tag" := by
  unfold emitField at h
  cases hr : resolveTag f with
  | mk name omitEmpty =>
    rw [hr] at h
    by_cases hn : name = ""
    · simp [hn] at h
      exact h.symm
    · simp [hn] at h
      split at h <;> simp_all

/-- A field whose resolved wire name is empty makes the loop body fail
with the invalid-url-tag error. -/
lemma emitField_invalid (f : Field) (hname : (resolveTag f).1 = "") :
    emitField f = .error "invalid url tag" := by
  unfold emitField
  cases hr : resolveTag f with
  | mk name omitEmpty =>
    rw [hr] at hname
    simp at hname
    subst hname
    simp

/-- A key present in the accumulator is present in the final result of
the field loop. -/
lemma marshalLoop_preserves_key (fields : List Field) (acc out : Values)
    (k : String) (hrun : marshalLoop fields acc = .ok out)
    (hk : (valuesGet acc k).isSome) : (valuesGet out k).isSome := by
  induction fields generalizing acc with
  | nil => simp [marshalLoop] at hrun; subst hrun; exact hk
  | cons f rest ih =>
    unfold marshalLoop at hrun
    cases he : emitField f with
    | error e => simp [he] at hrun
    | ok r =>
      cases r with
      | none => simp [he] at hrun; exact ih acc hrun hk
      | some kv =>
        obtain ⟨k', v'⟩ := kv
        simp [he] at hrun
        exact ih _ hrun (valuesGet_valuesSet_isSome acc k k' [v'] hk)

/-- A field whose loop body emits a pair contributes its key to the
final result of the loop. -/
lemma marshalLoop_emitted_key (fields : List Field) (acc out : Values)
    (f : Field) (k v : String) (hmem : f ∈ fields)
    (he : emitField f = .ok (some (k, v)))
    (hrun : marshalLoop fields acc = .ok out) :
    (valuesGet out k).isSome := by
  induction fields generalizing acc with
  | nil => simp at hmem
  | cons g rest ih =>
    unfold marshalLoop at hrun
    rcases List.mem_cons.mp hmem with hgf | hmem'
    · subst hgf
      simp [he] at hrun
      refine marshalLoop_preserves_key rest _ out k hrun ?_
      simp [valuesGet_valuesSet_self]
    · cases hg : emitField g with
      | error e => simp [hg] at hrun
      | ok r =>
        cases r with
        | none => simp [hg] at hrun; exact ih acc hmem' hrun
        | some kv =>
          obtain ⟨k', v'⟩ := kv
          simp [hg] at hrun
          exact ih _ hmem' hrun

/-- If any field of the list resolves to an empty wire name, the field
loop fails with the invalid-url-tag error, whatever the accumulator. -/
lemma marshalLoop_invalid_tag (fields : List Field) (acc : Values)
    (f : Field) (hmem : f ∈ fields) (hname : (resolveTag f).1 = "") :
    marshalLoop fields acc = .error "invalid url tag" := by
  induction fields generalizing acc with
  | nil => simp at hmem
  | cons g rest ih =>
    rcases List.mem_cons.mp hmem with hgf | hmem'
    · subst hgf
      simp [marshalLoop, emitField_invalid f hname]
    · unfold marshalLoop
      cases he : emitField g with
      | error e => simp [emitField_error_eq g e he]
      | ok r =>
        cases r with
        | none => simpa using ih acc hmem'
        | some kv => simpa using ih (valuesSet acc kv.1 [kv.2]) hmem'

/-- C1: refuted on the code.  MarshalValues marshals a slice-valued
field with json.Marshal and stores the result as ONE string (values.go
line 54 assigns a singleton list), so the ReqCreateShare scenario with
ID equal to the slice of s1 and s2 puts the single JSON array text
under the id key instead of the two values s1 and s2 (the description
key is indeed absent). -/
theorem c1_slice_field_marshals_as_single_json_array_text :
    (MarshalValues reqCreateShareScenario).map (fun out => valuesGet out "id")
      = .ok (some ["[\"s1\",\"s2\"]"]) ∧
    (MarshalValues reqCreateShareScenario).map (fun out => valuesGet out "id")
      ≠ .ok (some ["s1", "s2"]) ∧
    (MarshalValues reqCreateShareScenario).map
      (fun out => valuesGet out "description") = .ok none := by
  refine ⟨rfl, ?_, rfl⟩
  intro h
  have h0 : (MarshalValues reqCreateShareScenario).map
      (fun out => valuesGet out "id") = .ok (some ["[\"s1\",\"s2\"]"]) := rfl
  rw [h0] at h
  injection h with h'
  exact absurd h' (by decide)

/-- C2: refuted on the code.  An omit-if-empty field holding the zero
number 0 marshals to the text 0, which is neither the literal null nor
empty, so MarshalValues emits a key for it (values.go lines 44-54 skip
only the null and empty texts). -/
theorem c2_counterexample_zero_int_not_omitted :
    (MarshalValues [⟨"SongCount", some "songCount,omitempty", .jint 0⟩]).map
      (fun out => valuesGet out "songCount") = .ok (some ["0"]) := rfl

/-- C2 amended: an omit-if-empty field is skipped by MarshalValues
exactly when its marshaled quote-stripped text is the literal null or
the empty string; hence nil pointers, nil slices and empty strings are
omitted, but the zero number 0 is emitted as the text 0. -/
theorem c2_omitempty_skips_null_or_empty_text (f : Field) (k : String)
    (hk : (resolveTag f).1 = k) (ho : (resolveTag f).2 = true)
    (hne : k ≠ "") :
    (emitField f = .ok none ↔
      (fieldText f.value = "null" ∨ fieldText f.value = "")) ∧
    (f.value = .jnull → emitField f = .ok none) ∧
    (f.value = .jstr "" → emitField f = .ok none) ∧
    (f.value = .jint 0 → emitField f = .ok (some (k, "0"))) := by
  have hmain : emitField f = .ok none ↔
      (fieldText f.value = "null" ∨ fieldText f.value = "") := by
    unfold emitField
    cases hr : resolveTag f with
    | mk name omitEmpty =>
      rw [hr] at hk ho
      simp at hk ho
      subst hk
      subst ho
      by_cases hnull : fieldText f.value = "null"
      · simp [hne, hnull]
      · by_cases hempty : fieldText f.value = ""
        · simp [hne, hnull, hempty]
        · simp [hne, hnull, hempty]
  refine ⟨hmain, ?_, ?_, ?_⟩
  · intro hv
    exact hmain.mpr (Or.inl (by rw [hv]; rfl))
  · intro hv
    exact hmain.mpr (Or.inr (by rw [hv]; rfl))
  · intro hv
    unfold emitField
    cases hr : resolveTag f with
    | mk name omitEmpty =>
      rw [hr] at hk ho
      simp at hk ho
      subst hk
      subst ho
      rw [hv]
      have h0 : fieldText (JVal.jint 0) = "0" := rfl
      simp [hne, h0]

/-- Witness for the amended C2 theorem at the zero-valued Expires field
of ReqCreateShare modelled as a nil pointer and at a zero count. -/
theorem c2_omitempty_witness :
    emitField ⟨"SongIDs", some "songId,omitempty", .jnull⟩ = .ok none ∧
    emitField ⟨"SongCount", some "songCount,omitempty", .jint 0⟩
      = .ok (some ("songCount", "0")) :=
  ⟨(c2_omitempty_skips_null_or_empty_text
      ⟨"SongIDs", some "songId,omitempty", .jnull⟩ "songId"
      rfl rfl (by decide)).2.1 rfl,
   (c2_omitempty_skips_null_or_empty_text
      ⟨"SongCount", some "songCount,omitempty", .jint 0⟩ "songCount"
      rfl rfl (by decide)).2.2.2 rfl⟩

/-- C3: refuted on the code.  The null-skipping check of values.go
lines 45-47 sits inside the omitempty branch, so a nil pointer field
WITHOUT omitempty is emitted as the literal text null under its wire
name: there is no guard independent of the omit flag. -/
theorem c3_counterexample_nil_pointer_emits_null :
    MarshalValues [⟨"Submission", some "submission", .jnull⟩]
      = .ok [("submission", ["null"])] := rfl

/-- C3 amended: a nil pointer field whose omit flag is NOT set is kept
by MarshalValues and appears as the literal text null under its
resolved wire name; nil pointers are dropped only when omitempty is
set. -/
theorem c3_nil_without_omitempty_emits_null (f : Field) (k : String)
    (hk : (resolveTag f).1 = k) (ho : (resolveTag f).2 = false)
    (hne : k ≠ "") (hv : f.value = .jnull) :
    emitField f = .ok (some (k, "null")) ∧
    ∀ fields out, f ∈ fields → MarshalValues fields = .ok out →
      valuesGet out k ≠ none := by
  have he : emitField f = .ok (some (k, "null")) := by
    unfold emitField
    cases hr : resolveTag f with
    | mk name omitEmpty =>
      rw [hr] at hk ho
      simp at hk ho
      subst hk
      subst ho
      rw [hv]
      simp [hne]
      rfl
  refine ⟨he, fun fields out hmem hrun hnone => ?_⟩
  have := marshalLoop_emitted_key fields [] out f k "null" hmem he hrun
  rw [hnone] at this
  simp at this

/-- Witness for the amended C3 theorem: a nil Submission pointer under
the tag submission (no omitempty) is emitted as null. -/
theorem c3_nil_without_omitempty_witness :
    emitField ⟨"Submission", some "submission", .jnull⟩
      = .ok (some ("submission", "null")) ∧
    valuesGet [("submission", ["null"])] "submission" ≠ none :=
  ⟨(c3_nil_without_omitempty_emits_null
      ⟨"Submission", some "submission", .jnull⟩ "submission"
      rfl rfl (by decide) rfl).1,
   (c3_nil_without_omitempty_emits_null
      ⟨"Submission", some "submission", .jnull⟩ "submission"
      rfl rfl (by decide) rfl).2
     [⟨"Submission", some "submission", .jnull⟩]
     [("submission", ["null"])] (by simp) rfl⟩

/-- C6: wire-name resolution of MarshalValues.  An untagged field (with
its Go-guaranteed nonempty declared name) is always emitted under its
declared field name; a tagged field that is emitted is keyed by the
part of the tag before the first comma; and any field whose resolved
wire name is empty makes the whole call fail with the invalid-url-tag
error, returning no partial result. -/
theorem c6_wire_name_resolution :
    (∀ fields out f, MarshalValues fields = .ok out → f ∈ fields →
      f.tag = none → f.fieldName ≠ "" →
      emitField f = .ok (some (f.fieldName, fieldText f.value)) ∧
      valuesGet out f.fieldName ≠ none) ∧
    (∀ fields out f t k v, MarshalValues fields = .ok out → f ∈ fields →
      f.tag = some t → emitField f = .ok (some (k, v)) →
      k = (stringSplit t ',').headD "" ∧ valuesGet out k ≠ none) ∧
    (∀ fields f, f ∈ fields → (resolveTag f).1 = "" →
      MarshalValues fields = .error "invalid url tag") := by
  refine ⟨?_, ?_, ?_⟩
  · intro fields out f hrun hmem htag hname
    have he : emitField f = .ok (some (f.fieldName, fieldText f.value)) := by
      unfold emitField
      simp [resolveTag, htag, hname]
    refine ⟨he, fun hnone => ?_⟩
    have := marshalLoop_emitted_key fields [] out f f.fieldName
      (fieldText f.value) hmem he hrun
    rw [hnone] at this
    simp at this
  · intro fields out f t k v hrun hmem htag he
    have hk : k = (stringSplit t ',').headD "" := by
      unfold emitField at he
      cases hr : resolveTag f with
      | mk name omitEmpty =>
        rw [hr] at he
        have hname : name = (stringSplit t ',').headD "" := by
          have : resolveTag f = ((stringSplit t ',').headD "",
              ((stringSplit t ',').drop 1).contains "omitempty") := by
            simp [resolveTag, htag]
          rw [this] at hr
          exact (Prod.mk.injEq _ _ _ _ ▸ hr.symm).1
        by_cases hn : name = ""
        · simp [hn] at he
        · simp [hn] at he
          split at he <;> simp_all
    refine ⟨hk, fun hnone => ?_⟩
    have := marshalLoop_emitted_key fields [] out f k v hmem he hrun
    rw [hnone] at this
    simp at this
  · intro fields f hmem hname
    exact marshalLoop_invalid_tag fields [] f hmem hname

/-- Witness for the C6 theorem at concrete descriptors: the untagged B
field of the test struct Foo, the tagged A field, and a field whose tag
has an empty name part. -/
theorem c6_wire_name_witness :
    (emitField ⟨"B", none, .jint 4⟩ = .ok (some ("B", "4")) ∧
      valuesGet [("B", ["4"])] "B" ≠ none) ∧
    ("a" = (stringSplit "a" ',').headD "" ∧
      valuesGet [("a", ["test"])] "a" ≠ none) ∧
    MarshalValues [⟨"X", some ",omitempty", .jstr "v"⟩]
      = .error "invalid url tag" :=
  ⟨c6_wire_name_resolution.1 [⟨"B", none, .jint 4⟩] [("B", ["4"])]
      ⟨"B", none, .jint 4⟩ rfl (by simp) rfl (by decide),
   c6_wire_name_resolution.2.1 [⟨"A", some "a", .jstr "test"⟩]
      [("a", ["test"])] ⟨"A", some "a", .jstr "test"⟩ "a" "a" "test"
      rfl (by simp) rfl rfl,
   c6_wire_name_resolution.2.2 [⟨"X", some ",omitempty", .jstr "v"⟩]
      ⟨"X", some ",omitempty", .jstr "v"⟩ (by simp) (by decide)⟩

/-- Go slice element assignment strs[i] = v: defined only when the
index is inside the slice; writing past the end panics with an
index-out-of-range runtime error, modelled as none. -/
def sliceSet (l : List String) (i : Nat) (v : String) : Option (List String) :=
  if i < l.length then some (l.set i v) else none

/-- The range loop of idsToStrings (id.go lines 36-38), carrying the
running index and the slice being written; a panic aborts the loop. -/
def idsLoop : List String → Nat → List String → Option (List String)
  | [], _, strs => some strs
  | x :: rest, i, strs =>
    match sliceSet strs i x with
    | none => none
    | some strs2 => idsLoop rest (i + 1) strs2

/-- idsToStrings (id.go lines 35-40): the named return value strs
starts as the nil slice (length zero) and the loop assigns element i of
the input to index i of strs; none models the panic of an
out-of-bounds write. -/
def idsToStrings (ids : List String) : Option (List String) :=
  idsLoop ids 0 []

/-- Go strconv.FormatBool. -/
def goFormatBool (b : Bool) : String := cond b "true" "false"

/-- The url.Values literal built by Client.CreatePlaylist (playlist.go
lines 108-117): evaluating it runs idsToStrings on the song IDs, so a
panic there aborts the whole call, modelled as none. -/
def createPlaylistParams (name : String) (songIDs : List String) :
    Option Values :=
  (idsToStrings songIDs).map fun strs =>
    [("name", [name]), ("songId", strs)]

/-- The url.Values literal built by Client.UpdatePlaylist (playlist.go
lines 119-128), likewise evaluating idsToStrings on the appended song
IDs. -/
def updatePlaylistParams (playlistID name comment : String) (pub : Bool)
    (appendSongIDs : List String) : Option Values :=
  (idsToStrings appendSongIDs).map fun strs =>
    [("playlistId", [playlistID]), ("name", [name]), ("comment", [comment]),
     ("public", [goFormatBool pub]), ("songIdToAdd", strs)]

/-- C5: confirmed.  idsToStrings writes element i into a slice that is
still nil, so the write is out of bounds and the function panics for
every non-empty input, returning (nil) normally only on the empty list;
consequently the parameter construction of Client.CreatePlaylist and
Client.UpdatePlaylist panics for every non-empty song-ID list. -/
theorem c5_idsToStrings_out_of_bounds :
    idsToStrings [] = some [] ∧
    (∀ ids, ids ≠ [] → idsToStrings ids = none) ∧
    (∀ name ids, ids ≠ [] → createPlaylistParams name ids = none) ∧
    (∀ pid name comment pub ids, ids ≠ [] →
      updatePlaylistParams pid name comment pub ids = none) := by
  have hpanic : ∀ ids : List String, ids ≠ [] → idsToStrings ids = none := by
    intro ids h
    cases ids with
    | nil => exact absurd rfl h
    | cons x rest => rfl
  refine ⟨rfl, hpanic, ?_, ?_⟩
  · intro name ids h
    simp [createPlaylistParams, hpanic ids h]
  · intro pid name comment pub ids h
    simp [updatePlaylistParams, hpanic ids h]

/-- Witness for C5 at the one-element song list s1. -/
theorem c5_idsToStrings_witness :
    idsToStrings ["s1"] = none ∧
    createPlaylistParams "mix" ["s1"] = none ∧
    updatePlaylistParams "7" "mix" "c" true ["s1"] = none :=
  ⟨(c5_idsToStrings_out_of_bounds.2.1 ["s1"] (by decide)),
   (c5_idsToStrings_out_of_bounds.2.2.1 "mix" ["s1"] (by decide)),
   (c5_idsToStrings_out_of_bounds.2.2.2 "7" "mix" "c" true ["s1"] (by decide))⟩

/-- SubsonicID.UnmarshalJSON (id.go lines 13-28): a JSON string is kept
as is; a JSON number (always float64 in Go, modelled here as the
integers the package ever sees) is converted by Sprintf %d of int(val);
every other dynamic type is rejected.  The Go error text interpolates
the offending dynamic type name; the model uses the fixed prefix. -/
def unmarshalSubsonicID : JVal → Except String String
  | .jstr s => .ok s
  | .jint n => .ok (toString n)
  | _ => .error "cannot convert type to Subsonic ID"

/-- C7: confirmed.  Decoding the JSON number 42 yields the string 42,
decoding the JSON string abc yields abc unchanged, and every JSON value
that is neither a string nor a number is rejected with the
type-mismatch error. -/
theorem c7_subsonic_id_decode :
    unmarshalSubsonicID (.jint 42) = .ok "42" ∧
    unmarshalSubsonicID (.jstr "abc") = .ok "abc" ∧
    (∀ v : JVal, (∀ s, v ≠ .jstr s) → (∀ n, v ≠ .jint n) →
      unmarshalSubsonicID v = .error "cannot convert type to Subsonic ID") := by
  refine ⟨rfl, rfl, ?_⟩
  intro v hs hn
  cases v with
  | jstr s => exact absurd rfl (hs s)
  | jint n => exact absurd rfl (hn n)
  | jbool b => rfl
  | jnull => rfl
  | jarr elems => rfl

/-- Witness for C7 at a JSON boolean. -/
theorem c7_subsonic_id_witness :
    unmarshalSubsonicID (.jbool true)
      = .error "cannot convert type to Subsonic ID" :=
  c7_subsonic_id_decode.2.2 (.jbool true)
    (fun _ h => JVal.noConfusion h) (fun _ h => JVal.noConfusion h)

/-- A Go time.Duration: an integer count of nanoseconds. -/
abbrev GoDuration := Int

/-- SubsonicDuration.UnmarshalJSON (duration.go lines 11-24): a JSON
number n yields time.Duration(n) * time.Second, i.e. n·1000000000
nanoseconds; every other dynamic type is rejected (fixed error text
modelling the Go message with its %T interpolation). -/
def unmarshalSubsonicDuration : JVal → Except String GoDuration
  | .jint n => .ok (n * 1000000000)
  | _ => .error "cannot convert type to SubsonicDuration"

/-- Modelled from the Go standard library: time.Duration.String
restricted to non-negative whole-second durations (the only values the
claims exercise): seconds, preceded by minutes when at least one minute,
preceded by hours when at least one hour. -/
def durationString (d : GoDuration) : String :=
  let s := d / 1000000000
  let h := s / 3600
  let m := (s % 3600) / 60
  let sec := s % 60
  if h > 0 then
    toString h ++ "h" ++ toString m ++ "m" ++ toString sec ++ "s"
  else if m > 0 then toString m ++ "m" ++ toString sec ++ "s"
  else toString sec ++ "s"

/-- SubsonicDuration.MarshalJSON (duration.go lines 26-28): json.Marshal
of the human-readable duration string. -/
def marshalSubsonicDuration (d : GoDuration) : String :=
  jsonMarshal (.jstr (durationString d))

/-- C8: confirmed.  Decoding the JSON number 125 yields 125 seconds
(125·10⁹ nanoseconds); re-encoding that value produces the JSON string
2m5s, not the numeric text 125; and every non-number JSON value is
rejected with the type-mismatch error. -/
theorem c8_duration_asymmetry :
    unmarshalSubsonicDuration (.jint 125) = .ok (125 * 1000000000) ∧
    marshalSubsonicDuration (125 * 1000000000) = "\"2m5s\"" ∧
    marshalSubsonicDuration (125 * 1000000000) ≠ "125" ∧
    marshalSubsonicDuration (125 * 1000000000) ≠ "\"125\"" ∧
    (∀ v : JVal, (∀ n, v ≠ .jint n) →
      unmarshalSubsonicDuration v
        = .error "cannot convert type to SubsonicDuration") := by
  refine ⟨rfl, by decide, by decide, by decide, ?_⟩
  intro v hn
  cases v with
  | jint n => exact absurd rfl (hn n)
  | jstr s => rfl
  | jbool b => rfl
  | jnull => rfl
  | jarr elems => rfl

/-- Witness for C8 at a JSON string value. -/
theorem c8_duration_witness :
    unmarshalSubsonicDuration (.jstr "125")
      = .error "cannot convert type to SubsonicDuration" :=
  c8_duration_asymmetry.2.2.2.2 (.jstr "125") (fun _ h => JVal.noConfusion h)

/-- Joining character lists with a separator character, translated from
Go strings.Join. -/
def joinChar (sep : Char) : List (List Char) → List Char
  | [] => []
  | [x] => x
  | x :: y :: rest => x ++ sep :: joinChar sep (y :: rest)

/-- strings.Split never produces an empty list of parts. -/
lemma splitChar_ne_nil (sep : Char) (l : List Char) :
    splitChar sep l ≠ [] := by
  cases l with
  | nil => simp [splitChar]
  | cons c rest =>
    by_cases hc : c = sep
    · simp [splitChar, hc]
    · unfold splitChar
      rw [if_neg hc]
      split <;> simp

/-- Joining the parts of a split with the same separator restores the
original character list. -/
lemma joinChar_splitChar (sep : Char) (l : List Char) :
    joinChar sep (splitChar sep l) = l := by
  induction l with
  | nil => rfl
  | cons c rest ih =>
    by_cases hc : c = sep
    · subst hc
      cases hr : splitChar c rest with
      | nil => exact absurd hr (splitChar_ne_nil c rest)
      | cons y ys =>
        rw [show splitChar c (c :: rest) = [] :: y :: ys from by
          simp [splitChar, hr]]
        show [] ++ c :: joinChar c (y :: ys) = c :: rest
        rw [← hr, List.nil_append, ih]
    · cases hr : splitChar sep rest with
      | nil => exact absurd hr (splitChar_ne_nil sep rest)
      | cons t ts =>
        rw [show splitChar sep (c :: rest) = (c :: t) :: ts from by
          simp [splitChar, hc, hr]]
        cases ts with
        | nil =>
          show c :: t = c :: rest
          rw [hr] at ih
          simpa [joinChar] using ih
        | cons z zs =>
          show (c :: t) ++ sep :: joinChar sep (z :: zs) = c :: rest
          rw [hr] at ih
          rw [List.cons_append]
          rw [show t ++ sep :: joinChar sep (z :: zs)
              = joinChar sep (t :: z :: zs) from rfl]
          rw [ih]

/-- IgnoredArticles.UnmarshalJSON (mediaannotation.go lines 119-131):
the JSON value must be a string; the empty string decodes to the nil
list, anything else is strings.Split on single spaces.  The non-string
error comes from json.Unmarshal into a Go string and its text is
modelled by a fixed prefix. -/
def unmarshalIgnoredArticles : JVal → Except String (List String)
  | .jstr s => .ok (if s = "" then [] else stringSplit s ' ')
  | _ => .error "json: cannot unmarshal value into string"

/-- IgnoredArticles.MarshalJSON (mediaannotation.go lines 135-137):
json.Marshal of strings.Join of the articles with single spaces. -/
def marshalIgnoredArticles (a : List String) : String :=
  jsonMarshal (.jstr (joinChar ' ' (a.map String.toList)).asString)

/-- C9: confirmed.  The empty wire string decodes to the empty list,
the wire string The A An decodes to the three articles in order,
re-encoding them restores the wire string, and in general decoding any
wire string and re-encoding reproduces exactly the original JSON
string (in particular for every wire string whose tokens contain no
spaces). -/
theorem c9_ignored_articles_round_trip :
    unmarshalIgnoredArticles (.jstr "") = .ok [] ∧
    unmarshalIgnoredArticles (.jstr "The A An")
      = .ok ["The", "A", "An"] ∧
    marshalIgnoredArticles ["The", "A", "An"] = "\"The A An\"" ∧
    (∀ s a, unmarshalIgnoredArticles (.jstr s) = .ok a →
      marshalIgnoredArticles a = jsonMarshal (.jstr s)) := by
  refine ⟨rfl, rfl, by decide, ?_⟩
  intro s a h
  simp only [unmarshalIgnoredArticles, Except.ok.injEq] at h
  by_cases hs : s = ""
  · subst hs
    simp at h
    subst h
    rfl
  · rw [if_neg hs] at h
    subst h
    unfold marshalIgnoredArticles stringSplit
    have hmap : ∀ xs : List (List Char),
        (xs.map List.asString).map String.toList = xs := by
      intro xs
      induction xs with
      | nil => rfl
      | cons x rest ih => simp [ih]; rfl
    rw [hmap, joinChar_splitChar]
    obtain ⟨data⟩ := s
    rfl

/-- Witness for C9: decoding then re-encoding the wire string The A An
is the identity on its JSON form. -/
theorem c9_ignored_articles_witness :
    marshalIgnoredArticles ["The", "A", "An"]
      = jsonMarshal (.jstr "The A An") :=
  c9_ignored_articles_round_trip.2.2.2 "The A An" ["The", "A", "An"] rfl

/-- A Subsonic error (error.go lines 5-8): a numeric code and a
message. -/
structure SubsonicError where
  code : Int
  message : String
deriving DecidableEq

/-- The local pseudo-error for a missing protocol envelope (error.go
line 20). -/
def ErrNoSubsonicResponse : SubsonicError :=
  ⟨-1, "server returned invalid JSON"⟩

/-- The local pseudo-error for a server without OpenSubsonic support
(error.go line 21). -/
def ErrServerDoesNotSupportOpenSubsonic : SubsonicError :=
  ⟨-2, "server does not support OpenSubsonic"⟩

/-- The generic wire error with code 0 (error.go line 23). -/
def ErrGeneric : SubsonicError := ⟨0, "generic error"⟩

/-- The response envelope (the SubsonicResponse struct of the objects
file): the fields that client.go reads.  The ~40 optional result
payload fields are elided; they never influence version ratcheting or
error unwrapping. -/
structure Envelope where
  status : String
  version : String
  err : Option SubsonicError

/-- The mutable session state of a Client (client.go lines 18-29).  The
http.Client handle is elided; the remaining fields are exactly the
struct fields. -/
structure Client where
  hostname : String
  username : String
  password : String
  useSaltAuth : Bool
  version : String
  openSubsonic : Bool
  serverAvailable : Bool

/-- NewClient (client.go lines 31-51) on the successful path: the
returned client advertises protocol version 1.8.0, and the openSubsonic
and serverAvailable fields are left at their Go zero value false.  The
verifyCert argument only configures the elided TLS transport. -/
def NewClient (hostname username password : String)
    (_verifyCert useSaltAuth : Bool) : Client :=
  { hostname := hostname, username := username, password := password,
    useSaltAuth := useSaltAuth, version := "1.8.0",
    openSubsonic := false, serverAvailable := false }

/-- What getJSON receives from the transport and the JSON decoder: a
transport failure, a body that does not decode, a decoded body with the
subsonic-response key absent, or a decoded envelope. -/
inductive FetchResult where
  | transportFailed
  | bodyMalformed
  | missingEnvelope
  | envelope (env : Envelope)

/-- The error channel of getJSON: the transport error, the JSON decoder
error, or a SubsonicError value. -/
inductive RequestFailure where
  | transport
  | decode
  | subsonic (e : SubsonicError)

/-- getJSON (client.go lines 88-115) together with the serverAvailable
write of get (client.go lines 81-85): a transport failure marks the
server unavailable; an undecodable body and a missing envelope return
local errors; an envelope carrying an error object is returned as the
call error; only then is the stored protocol version overwritten with
the envelope version. -/
def getJSON (c : Client) (r : FetchResult) :
    Client × Except RequestFailure Envelope :=
  match r with
  | .transportFailed => ({ c with serverAvailable := false }, .error .transport)
  | .bodyMalformed => (c, .error .decode)
  | .missingEnvelope => (c, .error (.subsonic ErrNoSubsonicResponse))
  | .envelope env =>
    match env.err with
    | some e => (c, .error (.subsonic e))
    | none => ({ c with version := env.version }, .ok env)

/-- A failure envelope as a Subsonic server would send it: status
failed, a server version, and a populated error object. -/
def failedEnvelope : Envelope := ⟨"failed", "1.16.1", some ErrGeneric⟩

/-- C4: refuted on the code.  getJSON assigns c.version only after the
error check (client.go line 112 runs after the return at lines
108-110), so decoding a well-formed failure envelope leaves the stored
version untouched: a fresh client that receives failedEnvelope still
advertises 1.8.0, not the envelope version 1.16.1. -/
theorem c4_counterexample_failure_envelope_no_ratchet :
    (getJSON (NewClient "https://example.test" "u" "p" true false)
        (.envelope failedEnvelope)).1.version = "1.8.0" ∧
    failedEnvelope.version = "1.16.1" ∧
    (getJSON (NewClient "https://example.test" "u" "p" true false)
        (.envelope failedEnvelope)).1.version ≠ failedEnvelope.version := by
  refine ⟨rfl, rfl, ?_⟩
  intro h
  have : ("1.8.0" : String) = "1.16.1" := h
  exact absurd this (by decide)

/-- C4 amended: the negotiated protocol version is updated to the
envelope version exactly on envelopes whose error object is absent; an
envelope carrying an error object is returned as the operation error
with the whole client state, its version included, unchanged. -/
theorem c4_version_ratchet_only_without_error (c : Client) (env : Envelope) :
    (env.err = none →
      (getJSON c (.envelope env)).1 = { c with version := env.version } ∧
      (getJSON c (.envelope env)).2 = .ok env) ∧
    (∀ e, env.err = some e →
      (getJSON c (.envelope env)).1 = c ∧
      (getJSON c (.envelope env)).2 = .error (.subsonic e)) := by
  constructor
  · intro h
    simp [getJSON, h]
  · intro e h
    simp [getJSON, h]

/-- Witness for the amended C4 theorem at a fresh client with a success
envelope and with the failure envelope. -/
theorem c4_version_ratchet_witness :
    (getJSON (NewClient "https://example.test" "u" "p" true false)
        (.envelope ⟨"ok", "1.16.1", none⟩)).1
      = { NewClient "https://example.test" "u" "p" true false with
          version := "1.16.1" } ∧
    (getJSON (NewClient "https://example.test" "u" "p" true false)
        (.envelope failedEnvelope)).1
      = NewClient "https://example.test" "u" "p" true false :=
  ⟨((c4_version_ratchet_only_without_error
      (NewClient "https://example.test" "u" "p" true false)
      ⟨"ok", "1.16.1", none⟩).1 rfl).1,
   ((c4_version_ratchet_only_without_error
      (NewClient "https://example.test" "u" "p" true false)
      failedEnvelope).2 ErrGeneric rfl).1⟩

/-- The two field writes the package ever performs on a Client after
construction: get sets serverAvailable to false on a transport failure
(client.go line 83), and getJSON overwrites version from a decoded
envelope (client.go line 112).  No statement in the package assigns
openSubsonic. -/
inductive ClientStep : Client → Client → Prop
  | transportFailed (c : Client) :
      ClientStep c { c with serverAvailable := false }
  | versionRatchet (c : Client) (v : String) :
      ClientStep c { c with version := v }

/-- The client states reachable from a given constructed client by the
package's own operations. -/
def ReachableFrom (c0 c : Client) : Prop :=
  Relation.ReflTransGen ClientStep c0 c

/-- Every client state getJSON can produce is the input state or one
package step away from it, so the step relation covers getJSON. -/
lemma getJSON_state_step (c : Client) (r : FetchResult) :
    (getJSON c r).1 = c ∨ ClientStep c (getJSON c r).1 := by
  cases r with
  | transportFailed => exact Or.inr (ClientStep.transportFailed c)
  | bodyMalformed => exact Or.inl rfl
  | missingEnvelope => exact Or.inl rfl
  | envelope env =>
    cases h : env.err with
    | some e => left; simp [getJSON, h]
    | none =>
      right
      have : (getJSON c (.envelope env)).1
          = { c with version := env.version } := by simp [getJSON, h]
      rw [this]
      exact ClientStep.versionRatchet c env.version

/-- The pre-flight gate of GetOpenSubsonicExtensions (system.go lines
35-41): with the openSubsonic flag unset the dedicated local error is
returned before any request is issued; otherwise no local error. -/
def getOpenSubsonicExtensionsGate (c : Client) : Option SubsonicError :=
  if c.openSubsonic then none else some ErrServerDoesNotSupportOpenSubsonic

/-- C10: confirmed.  NewClient leaves openSubsonic false, no operation
of the package ever sets it, so on every reachable client state
GetOpenSubsonicExtensions short-circuits with the local code -2 error
before issuing a request. -/
theorem c10_open_subsonic_never_enabled (h u p : String) (vc sa : Bool)
    (c : Client) (hr : ReachableFrom (NewClient h u p vc sa) c) :
    c.openSubsonic = false ∧
    getOpenSubsonicExtensionsGate c
      = some ErrServerDoesNotSupportOpenSubsonic := by
  have hflag : c.openSubsonic = false := by
    induction hr with
    | refl => rfl
    | tail _ step ih => cases step <;> simpa using ih
  exact ⟨hflag, by simp [getOpenSubsonicExtensionsGate, hflag]⟩

/-- Witness for C10 at a freshly constructed client. -/
theorem c10_open_subsonic_witness :
    (NewClient "https://example.test" "u" "p" true false).openSubsonic
      = false ∧
    getOpenSubsonicExtensionsGate
        (NewClient "https://example.test" "u" "p" true false)
      = some ErrServerDoesNotSupportOpenSubsonic :=
  c10_open_subsonic_never_enabled "https://example.test" "u" "p" true false
    _ Relation.ReflTransGen.refl

end Subsonic
